import Mathlib

/-!
Verification of the cache-plus-rate-limit layer of the chapter-catalogue
backend: a shallow embedding in Lean 4 of `services/cacheService.js`,
`middleware/rateLimiter.js` and the cache-key usage in
`controllers/chapterController.js`, together with theorems settling the
specification claims about that layer.

Conventions of the embedding:
* JavaScript strings are modelled as Lean `String`; the default
  `Array.prototype.sort()` comparison (UTF-16 code units) is modelled by
  lexicographic comparison of the character lists, which coincides with it
  on all keys actually used (ASCII/BMP).
* A JS query object is modelled as an association list
  `List (String × Option String)` with pairwise-distinct keys (a JS object
  cannot hold a key twice); `none` models a `null` or `undefined` value and
  `some v` models any other value, already coerced to its string form the
  way the template literal coerces it.
* Fallible store calls take explicit `Bool` success flags: `true` means the
  underlying client call resolved, `false` that it rejected (the `catch`
  path).  All modelled operations are total Lean functions, which is the
  embedding of "no exception escapes".
-/

/-! ## String comparison and sorting

`Object.keys(query).sort()` sorts the key strings with the default
comparator, i.e. lexicographically by code unit.  Lean's built-in `String`
order does not reduce inside the kernel, so the comparison is defined here
directly on character lists. -/

theorem Char.toNat_injective {x y : Char} (h : x.toNat = y.toNat) : x = y := by
  have hx := Char.ofNat_toNat x
  rw [h, Char.ofNat_toNat] at hx
  exact hx.symm

def charListLe : List Char → List Char → Bool
  | [], _ => true
  | _ :: _, [] => false
  | a :: as, b :: bs =>
    if a.toNat < b.toNat then true
    else if b.toNat < a.toNat then false
    else charListLe as bs

def strLe (a b : String) : Bool := charListLe a.data b.data

theorem charListLe_total (a b : List Char) : charListLe a b = true ∨ charListLe b a = true := by
  induction a generalizing b with
  | nil => left; rfl
  | cons x xs ih =>
    cases b with
    | nil => right; rfl
    | cons y ys =>
      by_cases hxy : x.toNat < y.toNat
      · left; simp [charListLe, hxy]
      · by_cases hyx : y.toNat < x.toNat
        · right; simp [charListLe, hyx]
        · rcases ih ys with h | h
          · left; simp [charListLe, hxy, hyx, h]
          · right; simp [charListLe, hxy, hyx, h]

theorem charListLe_antisymm {a b : List Char} (h₁ : charListLe a b = true)
    (h₂ : charListLe b a = true) : a = b := by
  induction a generalizing b with
  | nil =>
    cases b with
    | nil => rfl
    | cons y ys => simp [charListLe] at h₂
  | cons x xs ih =>
    cases b with
    | nil => simp [charListLe] at h₁
    | cons y ys =>
      by_cases hxy : x.toNat < y.toNat
      · have : ¬ y.toNat < x.toNat := by omega
        simp [charListLe, this, hxy] at h₂
      · by_cases hyx : y.toNat < x.toNat
        · simp [charListLe, hxy, hyx] at h₁
        · have hx : x = y := Char.toNat_injective (by omega)
          simp [charListLe, hxy, hyx] at h₁ h₂
          rw [hx, ih h₁ h₂]

theorem charListLe_trans {a b c : List Char} (h₁ : charListLe a b = true)
    (h₂ : charListLe b c = true) : charListLe a c = true := by
  induction a generalizing b c with
  | nil => rfl
  | cons x xs ih =>
    cases b with
    | nil => simp [charListLe] at h₁
    | cons y ys =>
      cases c with
      | nil => simp [charListLe] at h₂
      | cons z zs =>
        have hzy : ¬ z.toNat < y.toNat := by
          intro hlt
          have hyz : ¬ y.toNat < z.toNat := by omega
          simp [charListLe, hyz, hlt] at h₂
        by_cases hxy : x.toNat < y.toNat
        · have hxz : x.toNat < z.toNat := by omega
          simp [charListLe, hxz]
        · have hyx : ¬ y.toNat < x.toNat := by
            intro hlt
            simp [charListLe, hxy, hlt] at h₁
          have hxyeq : x.toNat = y.toNat := by omega
          by_cases hyz : y.toNat < z.toNat
          · have hxz : x.toNat < z.toNat := by omega
            simp [charListLe, hxz]
          · have hxz : ¬ x.toNat < z.toNat := by omega
            have hzx : ¬ z.toNat < x.toNat := by omega
            simp only [charListLe, hxy, hyx, if_neg, if_false] at h₁
            simp only [charListLe, hyz, hzy, if_neg, if_false] at h₂
            simp only [charListLe, hxz, hzx, if_neg, if_false]
            exact ih h₁ h₂

theorem strLe_total (a b : String) : strLe a b = true ∨ strLe b a = true :=
  charListLe_total a.data b.data

theorem strLe_antisymm {a b : String} (h₁ : strLe a b = true) (h₂ : strLe b a = true) :
    a = b := by
  have h := charListLe_antisymm h₁ h₂
  have ha := congrArg String.mk h
  simpa using ha

theorem strLe_trans {a b c : String} (h₁ : strLe a b = true) (h₂ : strLe b c = true) :
    strLe a c = true :=
  charListLe_trans h₁ h₂

/-- Insertion of a key into a sorted key list; `sortKeys` models the
default-comparator `Array.prototype.sort()` applied to `Object.keys`.
On lists of pairwise-distinct keys every correct sort produces the same
output, so the choice of algorithm is immaterial. -/
def insertKey (x : String) : List String → List String
  | [] => [x]
  | y :: ys => if strLe x y then x :: y :: ys else y :: insertKey x ys

def sortKeys : List String → List String
  | [] => []
  | x :: xs => insertKey x (sortKeys xs)

theorem insertKey_perm (x : String) (l : List String) : (insertKey x l).Perm (x :: l) := by
  induction l with
  | nil => simp [insertKey]
  | cons y ys ih =>
    by_cases h : strLe x y = true
    · simp [insertKey, h]
    · simp only [insertKey, if_neg h]
      exact (List.Perm.cons y ih).trans (List.Perm.swap x y ys)

theorem sortKeys_perm (l : List String) : (sortKeys l).Perm l := by
  induction l with
  | nil => simp [sortKeys]
  | cons x xs ih =>
    exact ((insertKey_perm x (sortKeys xs)).trans (List.Perm.cons x ih))

theorem insertKey_sorted (x : String) (l : List String)
    (h : List.Pairwise (fun a b => strLe a b = true) l) :
    List.Pairwise (fun a b => strLe a b = true) (insertKey x l) := by
  induction l with
  | nil => simp [insertKey]
  | cons y ys ih =>
    rcases List.pairwise_cons.mp h with ⟨hy, hys⟩
    by_cases hxy : strLe x y = true
    · simp only [insertKey, if_pos hxy]
      refine List.pairwise_cons.mpr ⟨?_, h⟩
      intro b hb
      rcases List.mem_cons.mp hb with rfl | hb
      · exact hxy
      · exact strLe_trans hxy (hy b hb)
    · simp only [insertKey, if_neg hxy]
      refine List.pairwise_cons.mpr ⟨?_, ih hys⟩
      intro b hb
      have hyx : strLe y x = true := by
        rcases strLe_total x y with h' | h'
        · exact absurd h' hxy
        · exact h'
      have hmem := (insertKey_perm x ys).mem_iff.mp hb
      rcases List.mem_cons.mp hmem with rfl | hb'
      · exact hyx
      · exact hy b hb'

theorem sortKeys_sorted (l : List String) :
    List.Pairwise (fun a b => strLe a b = true) (sortKeys l) := by
  induction l with
  | nil => simp [sortKeys]
  | cons x xs ih => exact insertKey_sorted x (sortKeys xs) ih

/-- Two sorted lists that are permutations of each other are equal
(the comparator is antisymmetric). -/
theorem sorted_eq_of_perm {l₁ l₂ : List String}
    (h : l₁.Perm l₂)
    (s₁ : List.Pairwise (fun a b => strLe a b = true) l₁)
    (s₂ : List.Pairwise (fun a b => strLe a b = true) l₂) : l₁ = l₂ := by
  haveI : IsAntisymm String (fun a b => strLe a b = true) := ⟨fun _ _ => strLe_antisymm⟩
  exact List.eq_of_perm_of_sorted h s₁ s₂

/-- Sorting two permuted key lists yields the same list. -/
theorem sortKeys_eq_of_perm {l₁ l₂ : List String} (h : l₁.Perm l₂) :
    sortKeys l₁ = sortKeys l₂ :=
  sorted_eq_of_perm (((sortKeys_perm l₁).trans h).trans (sortKeys_perm l₂).symm)
    (sortKeys_sorted l₁) (sortKeys_sorted l₂)

/-! ## encodeURIComponent

`encodeURIComponent` keeps the unreserved characters
`A-Z a-z 0-9 - _ . ! ~ * ' ( )` and percent-encodes every other character
as the upper-case hex bytes of its UTF-8 encoding. -/

def hexUpper (n : ℕ) : Char :=
  match n with
  | 0 => '0' | 1 => '1' | 2 => '2' | 3 => '3' | 4 => '4'
  | 5 => '5' | 6 => '6' | 7 => '7' | 8 => '8' | 9 => '9'
  | 10 => 'A' | 11 => 'B' | 12 => 'C' | 13 => 'D' | 14 => 'E'
  | _ => 'F'

def utf8Bytes (c : Char) : List ℕ :=
  let n := c.toNat
  if n < 0x80 then [n]
  else if n < 0x800 then [0xC0 + n / 64, 0x80 + n % 64]
  else if n < 0x10000 then
    [0xE0 + n / 4096, 0x80 + (n / 64) % 64, 0x80 + n % 64]
  else
    [0xF0 + n / 262144, 0x80 + (n / 4096) % 64, 0x80 + (n / 64) % 64, 0x80 + n % 64]

def isUnreservedURI (c : Char) : Bool :=
  c.isAlpha || c.isDigit ||
    (c = '-' || c = '_' || c = '.' || c = '!' || c = '~' || c = '*' ||
     c = '\'' || c = '(' || c = ')')

def encodeChar (c : Char) : List Char :=
  if isUnreservedURI c then [c]
  else ((utf8Bytes c).map (fun b => ['%', hexUpper (b / 16), hexUpper (b % 16)])).flatten

def encodeURIComponent (s : String) : String :=
  String.mk ((s.data.map encodeChar).flatten)

/-! ## CacheService.generateCacheKey

Translated from `services/cacheService.js` (the `v2` enhanced version):

```
async generateCacheKey(endpoint, query = {}) {
  try {
    if (!query || Object.keys(query).length === 0) { return endpoint; }
    const queryString = Object.keys(query)
      .sort()
      .filter(key => query[key] !== undefined && query[key] !== null)
      .map(key => `$\x7bkey\x7d=$\x7bencodeURIComponent(query[key])\x7d`)
      .join('&');
    return `$\x7bendpoint\x7d$\x7bqueryString ? `?$\x7bqueryString\x7d` : ''\x7d`;
  } catch (error) { return endpoint; }
}
```

The `query` object is an association list; `queryVal` is `query[key]`
(`none` for a `null`/`undefined` value, and a JS property read of an
absent key yields `undefined`, hence `none` as well).  The body of the
function is total, so the `catch` fallback is unreachable. -/

def queryKeys (query : List (String × Option String)) : List String :=
  query.map Prod.fst

def queryVal (query : List (String × Option String)) (k : String) : Option String :=
  match query.lookup k with
  | some v => v
  | none => none

def generateCacheKey (endpoint : String) (query : List (String × Option String)) : String :=
  if (queryKeys query).length = 0 then endpoint
  else
    let queryString :=
      String.intercalate "&"
        (((sortKeys (queryKeys query)).filter
            (fun k => (queryVal query k).isSome)).map
          (fun k => k ++ "=" ++ encodeURIComponent ((queryVal query k).getD "")))
    if queryString = "" then endpoint else endpoint ++ "?" ++ queryString

/-- Modelled from the claim text, as the comparison point for C3: drop the
pairs whose value is null/undefined, sort the surviving keys
lexicographically, join `key=url-encoded-value` with `&`, and append to the
endpoint behind a `?`.  When every pair is dropped the joined string is
empty and nothing is appended (the code returns the bare endpoint in that
case; see `claim_C3`). -/
def specCacheKey (endpoint : String) (query : List (String × Option String)) : String :=
  if query.isEmpty then endpoint
  else
    let kept := query.filterMap (fun kv => kv.2.map (fun v => (kv.1, v)))
    let sortedKeys := sortKeys (kept.map Prod.fst)
    let joined :=
      String.intercalate "&"
        (sortedKeys.map (fun k => k ++ "=" ++ encodeURIComponent ((queryVal query k).getD "")))
    if joined = "" then endpoint else endpoint ++ "?" ++ joined

/-! ### Lookup lemmas for query objects -/

theorem lookup_cons_eq {β : Type} (k : String) (v : β)
    (t : List (String × β)) : List.lookup k ((k, v) :: t) = some v := by
  simp [List.lookup]

theorem lookup_cons_ne {β : Type} {k a : String} (h : k ≠ a) (v : β)
    (t : List (String × β)) :
    List.lookup k ((a, v) :: t) = List.lookup k t := by
  have hb : (k == a) = false := beq_eq_false_iff_ne.mpr h
  simp [List.lookup, hb]

theorem lookup_eq_of_perm {q₁ q₂ : List (String × Option String)}
    (hperm : q₁.Perm q₂) (hnd : (q₁.map Prod.fst).Nodup) (k : String) :
    q₁.lookup k = q₂.lookup k := by
  induction hperm with
  | nil => rfl
  | cons x h ih =>
    obtain ⟨a, v⟩ := x
    simp only [List.map_cons, List.nodup_cons] at hnd
    by_cases hk : k = a
    · subst hk; rw [lookup_cons_eq, lookup_cons_eq]
    · rw [lookup_cons_ne hk, lookup_cons_ne hk]
      exact ih hnd.2
  | swap x y l =>
    obtain ⟨a, v⟩ := x
    obtain ⟨b, w⟩ := y
    simp only [List.map_cons, List.nodup_cons, List.mem_cons] at hnd
    have hab : b ≠ a := fun h => hnd.1 (Or.inl h)
    by_cases hbk : k = b
    · subst hbk
      rw [lookup_cons_eq, lookup_cons_ne hab, lookup_cons_eq]
    · rw [lookup_cons_ne hbk]
      by_cases hak : k = a
      · subst hak
        rw [lookup_cons_eq, lookup_cons_eq]
      · rw [lookup_cons_ne hak, lookup_cons_ne hak, lookup_cons_ne hbk]
  | trans h₁ h₂ ih₁ ih₂ =>
    have hnd₂ := hnd.perm (h₁.map Prod.fst)
    exact (ih₁ hnd).trans (ih₂ hnd₂)

theorem lookup_of_mem_nodup {q : List (String × Option String)}
    (hnd : (q.map Prod.fst).Nodup) {kv : String × Option String} (hm : kv ∈ q) :
    q.lookup kv.1 = some kv.2 := by
  induction q with
  | nil => simp at hm
  | cons p t ih =>
    obtain ⟨a, v⟩ := p
    simp only [List.map_cons, List.nodup_cons] at hnd
    rcases List.mem_cons.mp hm with rfl | hm'
    · exact lookup_cons_eq a v t
    · have ha : kv.1 ≠ a := by
        intro h
        exact hnd.1 (h ▸ (List.mem_map.mpr ⟨kv, hm', rfl⟩))
      rw [lookup_cons_ne ha]
      exact ih hnd.2 hm'

/-! ### generateCacheKey: algorithm equivalence and permutation invariance -/

theorem keptPairs_keys (q : List (String × Option String)) :
    (q.filterMap (fun kv => kv.2.map (fun v => (kv.1, v)))).map Prod.fst =
      (q.filter (fun kv => kv.2.isSome)).map Prod.fst := by
  induction q with
  | nil => rfl
  | cons p t ih =>
    obtain ⟨a, v⟩ := p
    cases v with
    | none => simpa [List.filterMap_cons, List.filter_cons] using ih
    | some w => simpa [List.filterMap_cons, List.filter_cons] using ih

theorem filter_isSome_keys {q : List (String × Option String)}
    (hnd : (q.map Prod.fst).Nodup) :
    (q.map Prod.fst).filter (fun k => (queryVal q k).isSome) =
      (q.filter (fun kv => kv.2.isSome)).map Prod.fst := by
  induction q with
  | nil => rfl
  | cons p t ih =>
    obtain ⟨a, v⟩ := p
    simp only [List.map_cons, List.nodup_cons] at hnd
    have hhead : (queryVal ((a, v) :: t) a).isSome = v.isSome := by
      simp [queryVal, lookup_cons_eq]
    have htail : ∀ k ∈ t.map Prod.fst,
        (queryVal ((a, v) :: t) k).isSome = (queryVal t k).isSome := by
      intro k hk
      have hka : k ≠ a := fun h => hnd.1 (h ▸ hk)
      simp [queryVal, lookup_cons_ne hka]
    have hcongr :
        (t.map Prod.fst).filter (fun k => (queryVal ((a, v) :: t) k).isSome) =
          (t.map Prod.fst).filter (fun k => (queryVal t k).isSome) :=
      List.filter_congr htail
    cases v with
    | none =>
      simp only [List.map_cons, List.filter_cons, hhead, Option.isSome_none,
        Bool.false_eq_true, if_false]
      rw [hcongr, ih hnd.2]
    | some w =>
      simp only [List.map_cons, List.filter_cons, hhead, Option.isSome_some, if_true]
      rw [hcongr, ih hnd.2]

theorem sorted_filter_comm (q : List (String × Option String)) :
    (sortKeys (q.map Prod.fst)).filter (fun k => (queryVal q k).isSome) =
      sortKeys ((q.map Prod.fst).filter (fun k => (queryVal q k).isSome)) := by
  apply sorted_eq_of_perm
  · exact ((sortKeys_perm (q.map Prod.fst)).filter _).trans
      (sortKeys_perm ((q.map Prod.fst).filter _)).symm
  · exact (sortKeys_sorted (q.map Prod.fst)).filter _
  · exact sortKeys_sorted _

/-- The source algorithm (sort the keys, then drop null/undefined ones)
computes the same string as the claim-side algorithm (drop first, then
sort), for any query object with pairwise-distinct keys. -/
theorem generateCacheKey_eq_spec (endpoint : String)
    {q : List (String × Option String)} (hnd : (q.map Prod.fst).Nodup) :
    generateCacheKey endpoint q = specCacheKey endpoint q := by
  have hkeys : (sortKeys (queryKeys q)).filter (fun k => (queryVal q k).isSome) =
      sortKeys ((q.filterMap (fun kv => kv.2.map (fun v => (kv.1, v)))).map Prod.fst) := by
    rw [keptPairs_keys, ← filter_isSome_keys hnd]
    exact sorted_filter_comm q
  have hempty : ((queryKeys q).length = 0) = (q.isEmpty = true) := by
    simp [queryKeys, List.isEmpty_iff_length_eq_zero]
  cases q with
  | nil => rfl
  | cons p t =>
    have hne : ¬ ((queryKeys (p :: t)).length = 0) := by simp [queryKeys]
    have hne2 : (p :: t).isEmpty = false := rfl
    simp only [generateCacheKey, specCacheKey, hne, hne2, if_false,
      Bool.false_eq_true]
    rw [hkeys]

/-- Two query objects equal as key-value maps (same pairs up to order,
keys pairwise distinct) produce identical cache keys. -/
theorem generateCacheKey_perm {endpoint : String}
    {q₁ q₂ : List (String × Option String)} (hperm : q₁.Perm q₂)
    (hnd : (q₁.map Prod.fst).Nodup) :
    generateCacheKey endpoint q₁ = generateCacheKey endpoint q₂ := by
  have hval : queryVal q₁ = queryVal q₂ := by
    funext k
    simp [queryVal, lookup_eq_of_perm hperm hnd k]
  have hsort : sortKeys (queryKeys q₁) = sortKeys (queryKeys q₂) :=
    sortKeys_eq_of_perm (hperm.map Prod.fst)
  have hlen : (queryKeys q₁).length = (queryKeys q₂).length :=
    (hperm.map Prod.fst).length_eq
  simp only [generateCacheKey, hval, hsort, hlen]

/-! ## JSON values, `JSON.stringify` and `JSON.parse`

`CacheService.set` stores `JSON.stringify(data)` and `CacheService.get`
returns `JSON.parse(data)`.  Both builtins are modelled here over the
universe of JSON-representable values (numbers restricted to integers —
the float-exact behaviour of the builtins is outside the embedding).  The
printer is the compact form `JSON.stringify` emits (no whitespace, `"`,
`\` and control characters escaped, lower-case `\u00xx` for the control
characters without a short escape); the parser accepts exactly that
grammar, which is all the round-trip claim exercises. -/

inductive Json where
  | null : Json
  | bool : Bool → Json
  | num : Int → Json
  | str : String → Json
  | arr : List Json → Json
  | obj : List (String × Json) → Json
deriving Inhabited

/-! ### Decimal digits -/

def digitChar (n : ℕ) : Char :=
  match n with
  | 0 => '0' | 1 => '1' | 2 => '2' | 3 => '3' | 4 => '4'
  | 5 => '5' | 6 => '6' | 7 => '7' | 8 => '8' | _ => '9'

def digitVal (c : Char) : ℕ := c.toNat - 48

def isDigitC (c : Char) : Bool := 48 ≤ c.toNat && c.toNat ≤ 57

def natDigitsAux : ℕ → ℕ → List Char
  | 0, _ => []
  | f + 1, n =>
    if n < 10 then [digitChar n]
    else natDigitsAux f (n / 10) ++ [digitChar (n % 10)]

def printNat (n : ℕ) : List Char := natDigitsAux (n + 1) n

def printInt (i : ℤ) : List Char :=
  if i < 0 then '-' :: printNat i.natAbs else printNat i.natAbs

def digitsToNat (ds : List Char) : ℕ := ds.foldl (fun a c => 10 * a + digitVal c) 0

/-! ### String escaping -/

def hexLower (n : ℕ) : Char :=
  match n with
  | 0 => '0' | 1 => '1' | 2 => '2' | 3 => '3' | 4 => '4'
  | 5 => '5' | 6 => '6' | 7 => '7' | 8 => '8' | 9 => '9'
  | 10 => 'a' | 11 => 'b' | 12 => 'c' | 13 => 'd' | 14 => 'e'
  | _ => 'f'

def escapeChar (c : Char) : List Char :=
  if c = '"' then ['\\', '"']
  else if c = '\\' then ['\\', '\\']
  else if c = '\n' then ['\\', 'n']
  else if c = '\t' then ['\\', 't']
  else if c = '\r' then ['\\', 'r']
  else if c = '\x08' then ['\\', 'b']
  else if c = '\x0c' then ['\\', 'f']
  else if c.toNat < 32 then
    ['\\', 'u', '0', '0', hexLower (c.toNat / 16), hexLower (c.toNat % 16)]
  else [c]

def jsonEscape (cs : List Char) : List Char := (cs.map escapeChar).flatten

/-! ### Printer -/

mutual

def printJson : Json → List Char
  | .num i => printInt i
  | .str s => '"' :: jsonEscape s.data ++ ['"']
  | .bool b => if b then ['t', 'r', 'u', 'e'] else ['f', 'a', 'l', 's', 'e']
  | .null => ['n', 'u', 'l', 'l']
  | .arr [] => ['[', ']']
  | .arr (x :: xs) => '[' :: (printJson x ++ printArrTail xs)
  | .obj [] => ['\x7b', '\x7d']
  | .obj ((k, v) :: ms) =>
    '\x7b' :: ('"' :: jsonEscape k.data ++ ['"', ':'] ++ printJson v ++ printObjTail ms)

def printArrTail : List Json → List Char
  | [] => [']']
  | x :: xs => ',' :: (printJson x ++ printArrTail xs)

def printObjTail : List (String × Json) → List Char
  | [] => ['\x7d']
  | (k, v) :: ms =>
    ',' :: ('"' :: jsonEscape k.data ++ ['"', ':'] ++ printJson v ++ printObjTail ms)

end

def jsonStringify (v : Json) : String := String.mk (printJson v)

/-! ### Fuel measure for the parser -/

mutual

def sizeJ : Json → ℕ
  | .null => 1
  | .bool _ => 1
  | .num _ => 1
  | .str _ => 1
  | .arr l => 1 + sizeElems l
  | .obj l => 1 + sizeMembers l

def sizeElems : List Json → ℕ
  | [] => 0
  | x :: xs => 1 + sizeJ x + sizeElems xs

def sizeMembers : List (String × Json) → ℕ
  | [] => 0
  | (_, v) :: ms => 1 + sizeJ v + sizeMembers ms

end

/-! ### Parser -/

def isHexD (c : Char) : Bool :=
  (48 ≤ c.toNat && c.toNat ≤ 57) || (97 ≤ c.toNat && c.toNat ≤ 102) ||
    (65 ≤ c.toNat && c.toNat ≤ 70)

def hexVal (c : Char) : ℕ :=
  if c.toNat ≤ 57 then c.toNat - 48
  else if c.toNat ≤ 70 then c.toNat - 55
  else c.toNat - 87

def parseNat (cs : List Char) : Option (ℕ × List Char) :=
  match cs.span isDigitC with
  | (ds, rest) => if ds.isEmpty then none else some (digitsToNat ds, rest)

def parseStrBody : List Char → Option (List Char × List Char)
  | [] => none
  | c :: r =>
    if c = '"' then some ([], r)
    else if c = '\\' then
      match r with
      | [] => none
      | e :: r1 =>
        if e = '"' then (parseStrBody r1).map (fun p => ('"' :: p.1, p.2))
        else if e = '\\' then (parseStrBody r1).map (fun p => ('\\' :: p.1, p.2))
        else if e = '/' then (parseStrBody r1).map (fun p => ('/' :: p.1, p.2))
        else if e = 'n' then (parseStrBody r1).map (fun p => ('\n' :: p.1, p.2))
        else if e = 't' then (parseStrBody r1).map (fun p => ('\t' :: p.1, p.2))
        else if e = 'r' then (parseStrBody r1).map (fun p => ('\r' :: p.1, p.2))
        else if e = 'b' then (parseStrBody r1).map (fun p => ('\x08' :: p.1, p.2))
        else if e = 'f' then (parseStrBody r1).map (fun p => ('\x0c' :: p.1, p.2))
        else if e = 'u' then
          match r1 with
          | h1 :: h2 :: h3 :: h4 :: r2 =>
            if isHexD h1 && isHexD h2 && isHexD h3 && isHexD h4 then
              (parseStrBody r2).map (fun p =>
                (Char.ofNat (4096 * hexVal h1 + 256 * hexVal h2 + 16 * hexVal h3 + hexVal h4)
                  :: p.1, p.2))
            else none
          | _ => none
        else none
    else if c.toNat < 32 then none
    else (parseStrBody r).map (fun p => (c :: p.1, p.2))

/-- Parse mode: a JSON value, the element list of an array (after `[` and
at least one element), or the member list of an object (after `\x7b` and at
least one member). -/
inductive PMode where
  | val : PMode
  | elems : PMode
  | members : PMode

/-- Result of a parse in one of the three modes. -/
inductive JOut where
  | val : Json → JOut
  | elems : List Json → JOut
  | members : List (String × Json) → JOut

/-- The recursive core of `JSON.parse`, fuelled so that the recursion is
structural (each recursive call spends one unit of fuel). -/
def parseAny : ℕ → PMode → List Char → Option (JOut × List Char)
  | 0, _, _ => none
  | f + 1, .val, cs =>
    match cs with
    | [] => none
    | c :: r =>
      if c = 'n' then
        match r with
        | 'u' :: 'l' :: 'l' :: r2 => some (.val Json.null, r2)
        | _ => none
      else if c = 't' then
        match r with
        | 'r' :: 'u' :: 'e' :: r2 => some (.val (Json.bool true), r2)
        | _ => none
      else if c = 'f' then
        match r with
        | 'a' :: 'l' :: 's' :: 'e' :: r2 => some (.val (Json.bool false), r2)
        | _ => none
      else if c = '"' then
        (parseStrBody r).map (fun p => (.val (Json.str (String.mk p.1)), p.2))
      else if c = '-' then
        (parseNat r).map (fun p => (.val (Json.num (-(p.1 : ℤ))), p.2))
      else if c = '[' then
        match r with
        | [] => none
        | d :: r2 =>
          if d = ']' then some (.val (Json.arr []), r2)
          else
            match parseAny f .elems (d :: r2) with
            | some (.elems vs, r3) => some (.val (Json.arr vs), r3)
            | _ => none
      else if c = '\x7b' then
        match r with
        | [] => none
        | d :: r2 =>
          if d = '\x7d' then some (.val (Json.obj []), r2)
          else
            match parseAny f .members (d :: r2) with
            | some (.members ms, r3) => some (.val (Json.obj ms), r3)
            | _ => none
      else if isDigitC c then
        (parseNat (c :: r)).map (fun p => (.val (Json.num (p.1 : ℤ)), p.2))
      else none
  | f + 1, .elems, cs =>
    match parseAny f .val cs with
    | some (.val v, r) =>
      match r with
      | ',' :: r2 =>
        match parseAny f .elems r2 with
        | some (.elems vs, r3) => some (.elems (v :: vs), r3)
        | _ => none
      | ']' :: r2 => some (.elems [v], r2)
      | _ => none
    | _ => none
  | f + 1, .members, cs =>
    match cs with
    | '"' :: r =>
      match parseStrBody r with
      | none => none
      | some (k, r1) =>
        match r1 with
        | ':' :: r2 =>
          match parseAny f .val r2 with
          | some (.val v, r3) =>
            match r3 with
            | ',' :: r4 =>
              match parseAny f .members r4 with
              | some (.members ms, r5) => some (.members ((String.mk k, v) :: ms), r5)
              | _ => none
            | '\x7d' :: r4 => some (.members [(String.mk k, v)], r4)
            | _ => none
          | _ => none
        | _ => none
    | _ => none

def parseJson (f : ℕ) (cs : List Char) : Option (Json × List Char) :=
  match parseAny f .val cs with
  | some (.val v, r) => some (v, r)
  | _ => none

def jsonParse (s : String) : Option Json :=
  match parseJson s.data.length s.data with
  | some (v, []) => some v
  | _ => none

/-! ### Round-trip lemmas: digits -/

def headNotDigit : List Char → Bool
  | [] => true
  | c :: _ => !(isDigitC c)

theorem digitVal_digitChar {n : ℕ} (h : n < 10) : digitVal (digitChar n) = n := by
  interval_cases n <;> rfl

theorem isDigitC_digitChar {n : ℕ} (h : n < 10) : isDigitC (digitChar n) = true := by
  interval_cases n <;> rfl

theorem digitsToNat_append_single (ds : List Char) (d : Char) :
    digitsToNat (ds ++ [d]) = 10 * digitsToNat ds + digitVal d := by
  simp [digitsToNat, List.foldl_append]

theorem natDigitsAux_spec : ∀ f n, n < f →
    natDigitsAux f n ≠ [] ∧ (∀ c ∈ natDigitsAux f n, isDigitC c = true) ∧
      digitsToNat (natDigitsAux f n) = n := by
  intro f
  induction f with
  | zero => intro n h; omega
  | succ f ih =>
    intro n h
    by_cases h10 : n < 10
    · refine ⟨by simp [natDigitsAux, h10], ?_, ?_⟩
      · intro c hc
        simp [natDigitsAux, h10] at hc
        subst hc
        exact isDigitC_digitChar h10
      · simp [natDigitsAux, h10, digitsToNat, digitVal_digitChar h10]
    · have hdiv : n / 10 < f := by omega
      obtain ⟨hne, hdig, hval⟩ := ih (n / 10) hdiv
      refine ⟨by simp [natDigitsAux, h10], ?_, ?_⟩
      · intro c hc
        simp only [natDigitsAux, h10, if_false, List.mem_append, List.mem_singleton] at hc
        rcases hc with hc | hc
        · exact hdig c hc
        · subst hc; exact isDigitC_digitChar (by omega)
      · simp only [natDigitsAux, h10, if_false]
        rw [digitsToNat_append_single, hval, digitVal_digitChar (by omega)]
        omega

theorem printNat_ne_nil (n : ℕ) : printNat n ≠ [] :=
  (natDigitsAux_spec (n + 1) n (by omega)).1

theorem printNat_digits (n : ℕ) : ∀ c ∈ printNat n, isDigitC c = true :=
  (natDigitsAux_spec (n + 1) n (by omega)).2.1

theorem digitsToNat_printNat (n : ℕ) : digitsToNat (printNat n) = n :=
  (natDigitsAux_spec (n + 1) n (by omega)).2.2

theorem printNat_head (n : ℕ) : ∃ d r, printNat n = d :: r ∧ isDigitC d = true := by
  cases hp : printNat n with
  | nil => exact absurd hp (printNat_ne_nil n)
  | cons d r =>
    exact ⟨d, r, rfl, printNat_digits n d (by rw [hp]; exact List.mem_cons_self d r)⟩

/-! ### Round-trip lemmas: span and parseNat -/

theorem span_digits : ∀ (ds rest : List Char), (∀ c ∈ ds, isDigitC c = true) →
    headNotDigit rest = true → (ds ++ rest).span isDigitC = (ds, rest) := by
  intro ds
  induction ds with
  | nil =>
    intro rest _ hrest
    rw [List.span_eq_take_drop]
    cases rest with
    | nil => rfl
    | cons c r =>
      have hc : isDigitC c = false := by simpa [headNotDigit] using hrest
      simp [List.takeWhile_cons, List.dropWhile_cons, hc]
  | cons d ds ih =>
    intro rest hds hrest
    have hd : isDigitC d = true := hds d (List.mem_cons_self d ds)
    have hds' : ∀ c ∈ ds, isDigitC c = true := fun c hc => hds c (List.mem_cons_of_mem d hc)
    have hih := ih rest hds' hrest
    rw [List.span_eq_take_drop] at hih ⊢
    have h1 : List.takeWhile isDigitC (ds ++ rest) = ds := by
      have := congrArg Prod.fst hih; simpa using this
    have h2 : List.dropWhile isDigitC (ds ++ rest) = rest := by
      have := congrArg Prod.snd hih; simpa using this
    simp [List.takeWhile_cons, List.dropWhile_cons, hd, h1, h2]

theorem parseNat_printNat (n : ℕ) (rest : List Char) (h : headNotDigit rest = true) :
    parseNat (printNat n ++ rest) = some (n, rest) := by
  have hspan := span_digits (printNat n) rest (printNat_digits n) h
  have hne : (printNat n).isEmpty = false := by
    cases hp : printNat n with
    | nil => exact absurd hp (printNat_ne_nil n)
    | cons d r => rfl
  simp only [parseNat, hspan]
  simp [hne, digitsToNat_printNat]

/-! ### Round-trip lemmas: string bodies -/

theorem isHexD_hexLower {m : ℕ} (h : m < 16) : isHexD (hexLower m) = true := by
  interval_cases m <;> rfl

theorem hexVal_hexLower {m : ℕ} (h : m < 16) : hexVal (hexLower m) = m := by
  interval_cases m <;> rfl

theorem parseStrBody_escape : ∀ (cs rest : List Char),
    parseStrBody (jsonEscape cs ++ '"' :: rest) = some (cs, rest) := by
  intro cs
  induction cs with
  | nil =>
    intro rest
    show parseStrBody ('"' :: rest) = some ([], rest)
    rw [parseStrBody.eq_def]
    simp
  | cons c cs ih =>
    intro rest
    have hesc : jsonEscape (c :: cs) = escapeChar c ++ jsonEscape cs := by
      simp [jsonEscape]
    rw [hesc, List.append_assoc]
    by_cases h1 : c = '"'
    · subst h1
      show parseStrBody ('\\' :: '"' :: (jsonEscape cs ++ '"' :: rest)) = _
      rw [parseStrBody.eq_def]
      simp [ih rest]
    · by_cases h2 : c = '\\'
      · subst h2
        show parseStrBody ('\\' :: '\\' :: (jsonEscape cs ++ '"' :: rest)) = _
        rw [parseStrBody.eq_def]
        simp [ih rest]
      · by_cases h3 : c = '\n'
        · subst h3
          show parseStrBody ('\\' :: 'n' :: (jsonEscape cs ++ '"' :: rest)) = _
          rw [parseStrBody.eq_def]
          simp [ih rest]
        · by_cases h4 : c = '\t'
          · subst h4
            show parseStrBody ('\\' :: 't' :: (jsonEscape cs ++ '"' :: rest)) = _
            rw [parseStrBody.eq_def]
            simp [ih rest]
          · by_cases h5 : c = '\r'
            · subst h5
              show parseStrBody ('\\' :: 'r' :: (jsonEscape cs ++ '"' :: rest)) = _
              rw [parseStrBody.eq_def]
              simp [ih rest]
            · by_cases h6 : c = '\x08'
              · subst h6
                show parseStrBody ('\\' :: 'b' :: (jsonEscape cs ++ '"' :: rest)) = _
                rw [parseStrBody.eq_def]
                simp [ih rest]
              · by_cases h7 : c = '\x0c'
                · subst h7
                  show parseStrBody ('\\' :: 'f' :: (jsonEscape cs ++ '"' :: rest)) = _
                  rw [parseStrBody.eq_def]
                  simp [ih rest]
                · by_cases h8 : c.toNat < 32
                  · have hesc2 : escapeChar c =
                        ['\\', 'u', '0', '0', hexLower (c.toNat / 16),
                          hexLower (c.toNat % 16)] := by
                      simp only [escapeChar, if_neg h1, if_neg h2, if_neg h3, if_neg h4,
                        if_neg h5, if_neg h6, if_neg h7, if_pos h8]
                    rw [hesc2]
                    have hx1 : isHexD (hexLower (c.toNat / 16)) = true :=
                      isHexD_hexLower (by omega)
                    have hx2 : isHexD (hexLower (c.toNat % 16)) = true :=
                      isHexD_hexLower (by omega)
                    have hv0 : hexVal '0' = 0 := rfl
                    have hv1 : hexVal (hexLower (c.toNat / 16)) = c.toNat / 16 :=
                      hexVal_hexLower (by omega)
                    have hv2 : hexVal (hexLower (c.toNat % 16)) = c.toNat % 16 :=
                      hexVal_hexLower (by omega)
                    simp only [List.cons_append, List.nil_append]
                    rw [parseStrBody.eq_def]
                    simp [show isHexD '0' = true from rfl, hx1, hx2, hv0, hv1, hv2,
                      ih rest, Nat.div_add_mod, Char.ofNat_toNat]
                  · have hesc2 : escapeChar c = [c] := by
                      simp only [escapeChar, if_neg h1, if_neg h2, if_neg h3, if_neg h4,
                        if_neg h5, if_neg h6, if_neg h7, if_neg h8]
                    rw [hesc2]
                    simp only [List.cons_append, List.nil_append]
                    rw [parseStrBody.eq_def]
                    simp [h1, h2, h8, ih rest]

/-! ### Unfolding equations for the mutual printer and size functions -/

@[simp] theorem printJson_null : printJson .null = ['n', 'u', 'l', 'l'] := by
  rw [printJson.eq_def]

@[simp] theorem printJson_true : printJson (.bool true) = ['t', 'r', 'u', 'e'] := by
  rw [printJson.eq_def]; rfl

@[simp] theorem printJson_false : printJson (.bool false) = ['f', 'a', 'l', 's', 'e'] := by
  rw [printJson.eq_def]; rfl

@[simp] theorem printJson_num (i : ℤ) : printJson (.num i) = printInt i := by
  rw [printJson.eq_def]

@[simp] theorem printJson_str (s : String) :
    printJson (.str s) = '"' :: jsonEscape s.data ++ ['"'] := by
  rw [printJson.eq_def]

@[simp] theorem printJson_arr_nil : printJson (.arr []) = ['[', ']'] := by
  rw [printJson.eq_def]

@[simp] theorem printJson_arr_cons (x : Json) (xs : List Json) :
    printJson (.arr (x :: xs)) = '[' :: (printJson x ++ printArrTail xs) := by
  rw [printJson.eq_def]

@[simp] theorem printJson_obj_nil : printJson (.obj []) = ['\x7b', '\x7d'] := by
  rw [printJson.eq_def]

@[simp] theorem printJson_obj_cons (k : String) (v : Json) (ms : List (String × Json)) :
    printJson (.obj ((k, v) :: ms)) =
      '\x7b' :: ('"' :: jsonEscape k.data ++ ['"', ':'] ++ printJson v ++ printObjTail ms) := by
  rw [printJson.eq_def]

@[simp] theorem printArrTail_nil : printArrTail [] = [']'] := by
  rw [printArrTail.eq_def]

@[simp] theorem printArrTail_cons (x : Json) (xs : List Json) :
    printArrTail (x :: xs) = ',' :: (printJson x ++ printArrTail xs) := by
  rw [printArrTail.eq_def]

@[simp] theorem printObjTail_nil : printObjTail [] = ['\x7d'] := by
  rw [printObjTail.eq_def]

@[simp] theorem printObjTail_cons (k : String) (v : Json) (ms : List (String × Json)) :
    printObjTail ((k, v) :: ms) =
      ',' :: ('"' :: jsonEscape k.data ++ ['"', ':'] ++ printJson v ++ printObjTail ms) := by
  rw [printObjTail.eq_def]

@[simp] theorem sizeJ_null : sizeJ .null = 1 := by rw [sizeJ.eq_def]
@[simp] theorem sizeJ_bool (b : Bool) : sizeJ (.bool b) = 1 := by rw [sizeJ.eq_def]
@[simp] theorem sizeJ_num (i : ℤ) : sizeJ (.num i) = 1 := by rw [sizeJ.eq_def]
@[simp] theorem sizeJ_str (s : String) : sizeJ (.str s) = 1 := by rw [sizeJ.eq_def]
@[simp] theorem sizeJ_arr (l : List Json) : sizeJ (.arr l) = 1 + sizeElems l := by
  rw [sizeJ.eq_def]
@[simp] theorem sizeJ_obj (l : List (String × Json)) : sizeJ (.obj l) = 1 + sizeMembers l := by
  rw [sizeJ.eq_def]
@[simp] theorem sizeElems_nil : sizeElems [] = 0 := by rw [sizeElems.eq_def]
@[simp] theorem sizeElems_cons (x : Json) (xs : List Json) :
    sizeElems (x :: xs) = 1 + sizeJ x + sizeElems xs := by rw [sizeElems.eq_def]
@[simp] theorem sizeMembers_nil : sizeMembers [] = 0 := by rw [sizeMembers.eq_def]
@[simp] theorem sizeMembers_cons (k : String) (v : Json) (ms : List (String × Json)) :
    sizeMembers ((k, v) :: ms) = 1 + sizeJ v + sizeMembers ms := by rw [sizeMembers.eq_def]

/-! ### Heads of printed values -/

theorem digit_ne_brackets {d : Char} (h : isDigitC d = true) :
    d ≠ ']' ∧ d ≠ '\x7d' := by
  constructor
  · intro he; subst he; exact absurd h (by decide)
  · intro he; subst he; exact absurd h (by decide)

theorem printInt_head (i : ℤ) : ∃ d r, printInt i = d :: r ∧ d ≠ ']' ∧ d ≠ '\x7d' := by
  by_cases hi : i < 0
  · exact ⟨'-', printNat i.natAbs, by simp [printInt, hi], by decide, by decide⟩
  · obtain ⟨d, r, hdr, hd⟩ := printNat_head i.natAbs
    exact ⟨d, r, by simp [printInt, hi, hdr], (digit_ne_brackets hd).1,
      (digit_ne_brackets hd).2⟩

theorem printJson_head (v : Json) : ∃ d r, printJson v = d :: r ∧ d ≠ ']' ∧ d ≠ '\x7d' := by
  cases v with
  | null => exact ⟨'n', ['u', 'l', 'l'], by simp, by decide, by decide⟩
  | bool b =>
    cases b with
    | true => exact ⟨'t', ['r', 'u', 'e'], by simp, by decide, by decide⟩
    | false => exact ⟨'f', ['a', 'l', 's', 'e'], by simp, by decide, by decide⟩
  | num i =>
    obtain ⟨d, r, hdr, hd1, hd2⟩ := printInt_head i
    exact ⟨d, r, by simp [hdr], hd1, hd2⟩
  | str s => exact ⟨'"', jsonEscape s.data ++ ['"'], by simp, by decide, by decide⟩
  | arr l =>
    cases l with
    | nil => exact ⟨'[', [']'], by simp, by decide, by decide⟩
    | cons x xs =>
      exact ⟨'[', printJson x ++ printArrTail xs, by simp, by decide, by decide⟩
  | obj l =>
    cases l with
    | nil => exact ⟨'\x7b', ['\x7d'], by simp, by decide, by decide⟩
    | cons m ms =>
      obtain ⟨k, v⟩ := m
      exact ⟨'\x7b', '"' :: jsonEscape k.data ++ ['"', ':'] ++ printJson v ++ printObjTail ms,
        by simp, by decide, by decide⟩

theorem printJson_ne_nil (v : Json) : printJson v ≠ [] := by
  obtain ⟨d, r, hdr, -, -⟩ := printJson_head v
  simp [hdr]

theorem headNotDigit_arrTail (xs : List Json) (rest : List Char) :
    headNotDigit (printArrTail xs ++ rest) = true := by
  cases xs with
  | nil => simp [headNotDigit]; decide
  | cons x xs' => simp [headNotDigit]; decide

theorem headNotDigit_objTail (ms : List (String × Json)) (rest : List Char) :
    headNotDigit (printObjTail ms ++ rest) = true := by
  cases ms with
  | nil => simp [headNotDigit]; decide
  | cons m ms' =>
    obtain ⟨k, v⟩ := m
    simp [headNotDigit]; decide

/-! ### Parser fuel bound -/

theorem sizeJ_pos (v : Json) : 1 ≤ sizeJ v := by
  cases v <;> simp

mutual

theorem sizeJ_le_len : ∀ v : Json, sizeJ v ≤ (printJson v).length
  | .null => by simp
  | .bool b => by cases b <;> simp
  | .num i => by
    have h := printNat_ne_nil i.natAbs
    have hlen : 1 ≤ (printNat i.natAbs).length := by
      cases hp : printNat i.natAbs with
      | nil => exact absurd hp h
      | cons a b => simp
    by_cases hi : i < 0 <;> simp [printInt, hi] <;> exact hlen
  | .str s => by simp
  | .arr [] => by simp
  | .arr (x :: xs) => by
    have h := sizeElems_le_len x xs
    simp only [sizeJ_arr, sizeElems_cons, printJson_arr_cons, List.length_cons,
      List.length_append] at h ⊢
    omega
  | .obj [] => by simp
  | .obj ((k, v) :: ms) => by
    have h := sizeMembers_le_len k v ms
    simp only [sizeJ_obj, sizeMembers_cons, printJson_obj_cons, List.length_cons,
      List.length_append] at h ⊢
    omega
termination_by v => sizeOf v

theorem sizeElems_le_len : ∀ (x : Json) (xs : List Json),
    sizeElems (x :: xs) ≤ (printJson x ++ printArrTail xs).length
  | x, [] => by
    have h := sizeJ_le_len x
    simp only [sizeElems_cons, sizeElems_nil, printArrTail_nil, List.length_append,
      List.length_cons, List.length_nil]
    omega
  | x, y :: ys => by
    have h1 := sizeJ_le_len x
    have h2 := sizeElems_le_len y ys
    simp only [sizeElems_cons, printArrTail_cons, List.length_append,
      List.length_cons] at h2 ⊢
    omega
termination_by x xs => 1 + sizeOf x + sizeOf xs

theorem sizeMembers_le_len : ∀ (k : String) (v : Json) (ms : List (String × Json)),
    sizeMembers ((k, v) :: ms) ≤
      ('"' :: jsonEscape k.data ++ ['"', ':'] ++ printJson v ++ printObjTail ms).length
  | k, v, [] => by
    have h := sizeJ_le_len v
    simp only [sizeMembers_cons, sizeMembers_nil, printObjTail_nil, List.length_append,
      List.length_cons, List.length_nil]
    omega
  | k, v, (k2, v2) :: ms => by
    have h1 := sizeJ_le_len v
    have h2 := sizeMembers_le_len k2 v2 ms
    simp only [sizeMembers_cons, printObjTail_cons, List.length_append,
      List.length_cons] at h2 ⊢
    omega
termination_by k v ms => 2 + sizeOf k + sizeOf v + sizeOf ms

end

/-! ### Stepping equations for `parseAny` -/

theorem digit_ne_starts {d : Char} (h : isDigitC d = true) :
    d ≠ 'n' ∧ d ≠ 't' ∧ d ≠ 'f' ∧ d ≠ '"' ∧ d ≠ '-' ∧ d ≠ '[' ∧ d ≠ '\x7b' := by
  refine ⟨?_, ?_, ?_, ?_, ?_, ?_, ?_⟩ <;> (intro he; subst he; exact absurd h (by decide))

theorem parseAny_val_null (f : ℕ) (rest : List Char) :
    parseAny (f + 1) .val ('n' :: 'u' :: 'l' :: 'l' :: rest) = some (.val Json.null, rest) :=
  rfl

theorem parseAny_val_true (f : ℕ) (rest : List Char) :
    parseAny (f + 1) .val ('t' :: 'r' :: 'u' :: 'e' :: rest) =
      some (.val (Json.bool true), rest) :=
  rfl

theorem parseAny_val_false (f : ℕ) (rest : List Char) :
    parseAny (f + 1) .val ('f' :: 'a' :: 'l' :: 's' :: 'e' :: rest) =
      some (.val (Json.bool false), rest) :=
  rfl

theorem parseAny_val_str (f : ℕ) (X : List Char) :
    parseAny (f + 1) .val ('"' :: X) =
      (parseStrBody X).map (fun p => (.val (Json.str (String.mk p.1)), p.2)) :=
  rfl

theorem parseAny_val_neg (f : ℕ) (X : List Char) :
    parseAny (f + 1) .val ('-' :: X) =
      (parseNat X).map (fun p => (.val (Json.num (-(p.1 : ℤ))), p.2)) :=
  rfl

theorem parseAny_val_arr_nil (f : ℕ) (rest : List Char) :
    parseAny (f + 1) .val ('[' :: ']' :: rest) = some (.val (Json.arr []), rest) :=
  rfl

theorem parseAny_val_obj_nil (f : ℕ) (rest : List Char) :
    parseAny (f + 1) .val ('\x7b' :: '\x7d' :: rest) = some (.val (Json.obj []), rest) :=
  rfl

theorem parseAny_val_head (f : ℕ) (d : Char) (X : List Char) :
    parseAny (f + 1) .val (d :: X) =
      (if d = 'n' then
        match X with
        | 'u' :: 'l' :: 'l' :: r2 => some (.val Json.null, r2)
        | _ => none
      else if d = 't' then
        match X with
        | 'r' :: 'u' :: 'e' :: r2 => some (.val (Json.bool true), r2)
        | _ => none
      else if d = 'f' then
        match X with
        | 'a' :: 'l' :: 's' :: 'e' :: r2 => some (.val (Json.bool false), r2)
        | _ => none
      else if d = '"' then
        (parseStrBody X).map (fun p => (.val (Json.str (String.mk p.1)), p.2))
      else if d = '-' then
        (parseNat X).map (fun p => (.val (Json.num (-(p.1 : ℤ))), p.2))
      else if d = '[' then
        match X with
        | [] => none
        | e :: r2 =>
          if e = ']' then some (.val (Json.arr []), r2)
          else
            match parseAny f .elems (e :: r2) with
            | some (.elems vs, r3) => some (.val (Json.arr vs), r3)
            | _ => none
      else if d = '\x7b' then
        match X with
        | [] => none
        | e :: r2 =>
          if e = '\x7d' then some (.val (Json.obj []), r2)
          else
            match parseAny f .members (e :: r2) with
            | some (.members ms, r3) => some (.val (Json.obj ms), r3)
            | _ => none
      else if isDigitC d then
        (parseNat (d :: X)).map (fun p => (.val (Json.num (p.1 : ℤ)), p.2))
      else none) :=
  rfl

theorem parseAny_val_digit (f : ℕ) (d : Char) (X : List Char) (h : isDigitC d = true) :
    parseAny (f + 1) .val (d :: X) =
      (parseNat (d :: X)).map (fun p => (.val (Json.num (p.1 : ℤ)), p.2)) := by
  obtain ⟨ha, hb, hc, hd', he, hf, hg⟩ := digit_ne_starts h
  rw [parseAny_val_head, if_neg ha, if_neg hb, if_neg hc, if_neg hd', if_neg he,
    if_neg hf, if_neg hg, if_pos h]

theorem parseAny_val_arr_cons (f : ℕ) (d : Char) (X : List Char) (hd : d ≠ ']') :
    parseAny (f + 1) .val ('[' :: d :: X) =
      (match parseAny f .elems (d :: X) with
        | some (.elems vs, r3) => some (.val (Json.arr vs), r3)
        | _ => none) := by
  have h : parseAny (f + 1) .val ('[' :: d :: X) =
      (if d = ']' then some (.val (Json.arr []), X)
       else
         match parseAny f .elems (d :: X) with
         | some (.elems vs, r3) => some (.val (Json.arr vs), r3)
         | _ => none) := rfl
  rw [h, if_neg hd]

theorem parseAny_val_obj_cons (f : ℕ) (d : Char) (X : List Char) (hd : d ≠ '\x7d') :
    parseAny (f + 1) .val ('\x7b' :: d :: X) =
      (match parseAny f .members (d :: X) with
        | some (.members ms, r3) => some (.val (Json.obj ms), r3)
        | _ => none) := by
  have h : parseAny (f + 1) .val ('\x7b' :: d :: X) =
      (if d = '\x7d' then some (.val (Json.obj []), X)
       else
         match parseAny f .members (d :: X) with
         | some (.members ms, r3) => some (.val (Json.obj ms), r3)
         | _ => none) := rfl
  rw [h, if_neg hd]

theorem parseAny_elems_step (f : ℕ) (cs : List Char) :
    parseAny (f + 1) .elems cs =
      (match parseAny f .val cs with
        | some (.val v, r) =>
          match r with
          | ',' :: r2 =>
            (match parseAny f .elems r2 with
              | some (.elems vs, r3) => some (.elems (v :: vs), r3)
              | _ => none)
          | ']' :: r2 => some (.elems [v], r2)
          | _ => none
        | _ => none) :=
  rfl

theorem parseAny_members_step (f : ℕ) (r : List Char) :
    parseAny (f + 1) .members ('"' :: r) =
      (match parseStrBody r with
        | none => none
        | some (k, r1) =>
          match r1 with
          | ':' :: r2 =>
            (match parseAny f .val r2 with
              | some (.val v, r3) =>
                match r3 with
                | ',' :: r4 =>
                  (match parseAny f .members r4 with
                    | some (.members ms, r5) => some (.members ((String.mk k, v) :: ms), r5)
                    | _ => none)
                | '\x7d' :: r4 => some (.members [(String.mk k, v)], r4)
                | _ => none
              | _ => none)
          | _ => none) :=
  rfl

theorem parseAny_members_step2 (f : ℕ) (r k r2 : List Char)
    (hk : parseStrBody r = some (k, ':' :: r2)) :
    parseAny (f + 1) .members ('"' :: r) =
      (match parseAny f .val r2 with
        | some (.val v, r3) =>
          match r3 with
          | ',' :: r4 =>
            (match parseAny f .members r4 with
              | some (.members ms, r5) => some (.members ((String.mk k, v) :: ms), r5)
              | _ => none)
          | '\x7d' :: r4 => some (.members [(String.mk k, v)], r4)
          | _ => none
        | _ => none) := by
  rw [parseAny_members_step, hk]
  rfl

/-! ### The round trip `parse (print v) = v` -/

theorem parseAny_print : ∀ fuel : ℕ,
    (∀ (v : Json) (rest : List Char), sizeJ v ≤ fuel → headNotDigit rest = true →
        parseAny fuel .val (printJson v ++ rest) = some (.val v, rest)) ∧
    (∀ (x : Json) (xs : List Json) (rest : List Char), sizeElems (x :: xs) ≤ fuel →
        parseAny fuel .elems ((printJson x ++ printArrTail xs) ++ rest) =
          some (.elems (x :: xs), rest)) ∧
    (∀ (k : String) (v : Json) (ms : List (String × Json)) (rest : List Char),
        sizeMembers ((k, v) :: ms) ≤ fuel →
        parseAny fuel .members
            (('"' :: jsonEscape k.data ++ ['"', ':'] ++ printJson v ++ printObjTail ms) ++ rest) =
          some (.members ((k, v) :: ms), rest)) := by
  intro fuel
  induction fuel with
  | zero =>
    refine ⟨fun v rest hs _ => ?_, fun x xs rest hs => ?_, fun k v ms rest hs => ?_⟩
    · have := sizeJ_pos v; omega
    · simp only [sizeElems_cons] at hs; have := sizeJ_pos x; omega
    · simp only [sizeMembers_cons] at hs; have := sizeJ_pos v; omega
  | succ f ih =>
    obtain ⟨ih1, ih2, ih3⟩ := ih
    refine ⟨?_, ?_, ?_⟩
    · intro v rest hs hrest
      cases v with
      | null =>
        simp only [printJson_null, List.cons_append, List.nil_append]
        exact parseAny_val_null f rest
      | bool b =>
        cases b with
        | true =>
          simp only [printJson_true, List.cons_append, List.nil_append]
          exact parseAny_val_true f rest
        | false =>
          simp only [printJson_false, List.cons_append, List.nil_append]
          exact parseAny_val_false f rest
      | num i =>
        by_cases hi : i < 0
        · have hp : printInt i = '-' :: printNat i.natAbs := by simp [printInt, hi]
          simp only [printJson_num, hp, List.cons_append]
          rw [parseAny_val_neg, parseNat_printNat i.natAbs rest hrest]
          have hnum : -((i.natAbs : ℕ) : ℤ) = i := by omega
          simp only [Option.map_some', hnum]
        · have hp : printInt i = printNat i.natAbs := by simp [printInt, hi]
          obtain ⟨d, ds, hdr, hd⟩ := printNat_head i.natAbs
          simp only [printJson_num, hp, hdr, List.cons_append]
          rw [parseAny_val_digit f d (ds ++ rest) hd]
          have hpn : parseNat (d :: (ds ++ rest)) = some (i.natAbs, rest) := by
            rw [show d :: (ds ++ rest) = (d :: ds) ++ rest from rfl, ← hdr]
            exact parseNat_printNat i.natAbs rest hrest
          rw [hpn]
          have hnum : ((i.natAbs : ℕ) : ℤ) = i := by omega
          simp only [Option.map_some', hnum]
      | str s =>
        simp only [printJson_str, List.cons_append, List.append_assoc, List.nil_append]
        rw [parseAny_val_str, parseStrBody_escape s.data rest]
        simp [show String.mk s.data = s from rfl]
      | arr l =>
        cases l with
        | nil =>
          simp only [printJson_arr_nil, List.cons_append, List.nil_append]
          exact parseAny_val_arr_nil f rest
        | cons x xs =>
          obtain ⟨d, r2, hdr, hd1, hd2⟩ := printJson_head x
          have hsz : sizeElems (x :: xs) ≤ f := by
            simp only [sizeJ_arr] at hs; omega
          have helems := ih2 x xs rest hsz
          rw [hdr] at helems
          simp only [List.cons_append, List.append_assoc] at helems
          simp only [printJson_arr_cons, List.cons_append, List.append_assoc, hdr]
          rw [parseAny_val_arr_cons f d _ hd1, helems]
      | obj l =>
        cases l with
        | nil =>
          simp only [printJson_obj_nil, List.cons_append, List.nil_append]
          exact parseAny_val_obj_nil f rest
        | cons m ms =>
          obtain ⟨k, v⟩ := m
          have hsz : sizeMembers ((k, v) :: ms) ≤ f := by
            simp only [sizeJ_obj] at hs; omega
          have hmems := ih3 k v ms rest hsz
          simp only [List.cons_append, List.append_assoc, List.nil_append] at hmems
          simp only [printJson_obj_cons, List.cons_append, List.append_assoc,
            List.nil_append]
          rw [parseAny_val_obj_cons f '"' _ (by decide), hmems]
    · intro x xs rest hs
      have hszx : sizeJ x ≤ f := by simp only [sizeElems_cons] at hs; omega
      have hval := ih1 x (printArrTail xs ++ rest) hszx (headNotDigit_arrTail xs rest)
      rw [parseAny_elems_step, List.append_assoc, hval]
      cases xs with
      | nil =>
        simp only [printArrTail_nil, List.cons_append, List.nil_append]
      | cons y ys =>
        have hsz2 : sizeElems (y :: ys) ≤ f := by
          simp only [sizeElems_cons] at hs ⊢; omega
        have hrec := ih2 y ys rest hsz2
        simp only [List.cons_append, List.append_assoc] at hrec
        simp only [printArrTail_cons, List.cons_append, List.append_assoc]
        rw [hrec]
    · intro k v ms rest hs
      have hszv : sizeJ v ≤ f := by simp only [sizeMembers_cons] at hs; omega
      have hval := ih1 v (printObjTail ms ++ rest) hszv (headNotDigit_objTail ms rest)
      simp only [List.cons_append, List.append_assoc, List.nil_append]
      rw [parseAny_members_step2 f _ k.data _
        (parseStrBody_escape k.data (':' :: (printJson v ++ (printObjTail ms ++ rest))))]
      rw [hval]
      cases ms with
      | nil =>
        simp only [printObjTail_nil, List.cons_append, List.nil_append]
      | cons m2 ms2 =>
        obtain ⟨k2, v2⟩ := m2
        have hsz2 : sizeMembers ((k2, v2) :: ms2) ≤ f := by
          simp only [sizeMembers_cons] at hs ⊢; omega
        have hrec := ih3 k2 v2 ms2 rest hsz2
        simp only [List.cons_append, List.append_assoc, List.nil_append] at hrec
        simp only [printObjTail_cons, List.cons_append, List.append_assoc,
          List.nil_append]
        rw [hrec]

/-- `JSON.parse (JSON.stringify v) = v` for every JSON value. -/
theorem jsonParse_stringify (v : Json) : jsonParse (jsonStringify v) = some v := by
  have h := (parseAny_print (printJson v).length).1 v [] (sizeJ_le_len v) rfl
  rw [List.append_nil] at h
  simp only [jsonParse, jsonStringify, parseJson]
  rw [h]

theorem jsonStringify_ne_empty (v : Json) : jsonStringify v ≠ "" := by
  simp only [jsonStringify]
  intro h
  have hd := congrArg String.data h
  simp only at hd
  exact printJson_ne_nil v hd

/-! ## Cache service (`services/cacheService.js`)

The store client is the capability the calling code assumes: a handle with
a non-blocking `isOpen` flag and get/setEx/del/keys operations.  The store
contents are an association list from keys to entries (serialized payload
plus the TTL passed to `setEx`).  `getClient()` re-resolves the module
client only when `this.client` is absent or closed; on every path below
that runs store operations `isAvailable()` has already checked that the
client is present and open, so `getClient()` returns it unchanged and its
`if (!client)` guard is dead. -/

structure StoreClient where
  isOpen : Bool
deriving DecidableEq

structure CacheServiceState where
  client : Option StoreClient
  initialized : Bool
deriving DecidableEq

/-- `isAvailable() { return this.client && this.client.isOpen && this.initialized; }` -/
def CacheService.isAvailable (s : CacheServiceState) : Bool :=
  match s.client with
  | none => false
  | some c => c.isOpen && s.initialized

structure CacheEntry where
  data : String
  ttl : ℕ
deriving DecidableEq

abbrev CacheStore := List (String × CacheEntry)

def cacheUpsert (k : String) (e : CacheEntry) (st : CacheStore) : CacheStore :=
  (k, e) :: st.filter (fun p => !(p.1 == k))

/-- `CacheService.get`: absent if unavailable; on client error (`ok = false`)
the `catch` returns null; a falsy (empty) payload is a miss; otherwise
`JSON.parse(data)` (a parse throw is also caught to null). -/
def cacheGet (s : CacheServiceState) (ok : Bool) (st : CacheStore) (key : String) :
    Option Json :=
  if !(CacheService.isAvailable s) then none
  else if !ok then none
  else
    match st.lookup key with
    | none => none
    | some e => if e.data = "" then none else jsonParse e.data

/-- `CacheService.set`: false if unavailable; otherwise
`client.setEx(key, expiry, JSON.stringify(data))` and true, with any error
caught to false (`ok = false` leaves the store untouched). -/
def cacheSet (s : CacheServiceState) (ok : Bool) (st : CacheStore) (key : String)
    (v : Json) (expiry : ℕ) : Bool × CacheStore :=
  if !(CacheService.isAvailable s) then (false, st)
  else if !ok then (false, st)
  else (true, cacheUpsert key ⟨jsonStringify v, expiry⟩ st)

/-- Redis `KEYS` glob on the fragment the service uses (`*`, `?` and literal
characters), fuelled so that the recursion is structural. -/
def globMatchF : ℕ → List Char → List Char → Bool
  | 0, _, _ => false
  | f + 1, p, s =>
    match p, s with
    | [], [] => true
    | [], _ :: _ => false
    | '*' :: pr, s2 =>
      globMatchF f pr s2 ||
        (match s2 with
          | [] => false
          | _ :: sr => globMatchF f ('*' :: pr) sr)
    | '?' :: _, [] => false
    | '?' :: pr, _ :: sr => globMatchF f pr sr
    | _ :: _, [] => false
    | c :: pr, d :: sr => if c = d then globMatchF f pr sr else false

def globMatch (pattern key : String) : Bool :=
  globMatchF (pattern.data.length + key.data.length + 1) pattern.data key.data

/-- `CacheService.invalidatePattern`: false if unavailable; scans
`client.keys(pattern)` (error ⇒ false), batch-deletes when at least one key
matched (error ⇒ false), and returns true when the scan-and-delete
completed — also when zero keys matched, in which case nothing is
deleted. -/
def invalidatePattern (s : CacheServiceState) (okKeys okDel : Bool)
    (st : CacheStore) (pattern : String) : Bool × CacheStore :=
  if !(CacheService.isAvailable s) then (false, st)
  else if !okKeys then (false, st)
  else
    let keys := (st.map Prod.fst).filter (fun k => globMatch pattern k)
    if keys.length > 0 then
      if !okDel then (false, st)
      else (true, st.filter (fun p => !(keys.contains p.1)))
    else (true, st)

/-! ## Promise timing (`v2: Add timeout for Redis operations`)

Every store-touching method of the cache service builds
`timeoutPromise` (rejecting after the configured bound) and then runs

```
const opPromise = await client.op(...);
const out = await Promise.race([opPromise, timeoutPromise]);
```

A promise is modelled by the instant it settles (`⊤` = never) and its
result.  `await call` suspends for `call.settleAt`; the value it binds is
already settled, so the subsequent race is between an
immediately-available value and whatever remains of the timeout. -/

structure JsPromise (α : Type) where
  settleAt : ℕ∞
  result : α

/-- `Promise.race`: settles with whichever input settles first (ties go to
the earlier element of the array). -/
def promiseRace {α : Type} (p q : JsPromise α) : JsPromise α :=
  if p.settleAt ≤ q.settleAt then p else q

/-- Elapsed time of `const x = await call; await Promise.race([x, timeout])`:
the await contributes the full call duration, and the race then sees a
value that settled at relative instant 0 against the timeout remainder. -/
def awaitThenRaceElapsed {α : Type} (timeoutMs : ℕ) (call : JsPromise α) : ℕ∞ :=
  call.settleAt +
    (promiseRace (⟨0, some call.result⟩ : JsPromise (Option α))
      ⟨(timeoutMs : ℕ∞) - call.settleAt, none⟩).settleAt

/-- Result delivered by the same pattern: the settled store value, never
the timeout rejection. -/
def awaitThenRaceResult {α : Type} (timeoutMs : ℕ) (call : JsPromise α) : Option α :=
  (promiseRace (⟨0, some call.result⟩ : JsPromise (Option α))
    ⟨(timeoutMs : ℕ∞) - call.settleAt, none⟩).result

def cacheGetElapsed (call : JsPromise (Option String)) : ℕ∞ :=
  awaitThenRaceElapsed 5000 call

def cacheSetElapsed (call : JsPromise Unit) : ℕ∞ :=
  awaitThenRaceElapsed 5000 call

def cacheDeleteElapsed (call : JsPromise ℕ) : ℕ∞ :=
  awaitThenRaceElapsed 5000 call

def invalidatePatternScanElapsed (call : JsPromise (List String)) : ℕ∞ :=
  awaitThenRaceElapsed 10000 call

def clearAllElapsed (call : JsPromise Unit) : ℕ∞ :=
  awaitThenRaceElapsed 10000 call

theorem awaitThenRaceElapsed_eq {α : Type} (t : ℕ) (call : JsPromise α) :
    awaitThenRaceElapsed t call = call.settleAt := by
  simp [awaitThenRaceElapsed, promiseRace, zero_le]

theorem awaitThenRaceResult_eq {α : Type} (t : ℕ) (call : JsPromise α) :
    awaitThenRaceResult t call = some call.result := by
  simp [awaitThenRaceResult, promiseRace, zero_le]

/-! ## Rate limiter (`middleware/rateLimiter.js`) -/

structure CounterEntry where
  value : ℤ
  ttl : Option ℕ
deriving DecidableEq

abbrev CounterStore := List (String × CounterEntry)

def counterUpsert (k : String) (e : CounterEntry) (st : CounterStore) : CounterStore :=
  (k, e) :: st.filter (fun p => !(p.1 == k))

/-- Redis `INCR`: a missing key counts from 0 and is created without a TTL;
an existing key keeps its TTL. -/
def redisIncr (k : String) (st : CounterStore) : ℤ × CounterStore :=
  match st.lookup k with
  | none => (1, counterUpsert k ⟨1, none⟩ st)
  | some e => (e.value + 1, counterUpsert k ⟨e.value + 1, e.ttl⟩ st)

/-- Redis `DECR`, with the same TTL behaviour as `INCR`. -/
def redisDecr (k : String) (st : CounterStore) : ℤ × CounterStore :=
  match st.lookup k with
  | none => (-1, counterUpsert k ⟨-1, none⟩ st)
  | some e => (e.value - 1, counterUpsert k ⟨e.value - 1, e.ttl⟩ st)

/-- Redis `EXPIRE key secs`: sets the TTL of an existing key. -/
def redisExpire (k : String) (secs : ℕ) (st : CounterStore) : CounterStore :=
  match st.lookup k with
  | none => st
  | some e => counterUpsert k ⟨e.value, some secs⟩ st

/-- Redis plain `SET`: stores the value and removes any TTL. -/
def redisSet (k : String) (v : ℤ) (st : CounterStore) : CounterStore :=
  counterUpsert k ⟨v, none⟩ st

structure IncrInfo where
  totalHits : ℤ
  resetTime : ℕ
deriving DecidableEq

/-- `RedisStore.incr` (rateLimiter.js 19–40).  The fallback and the catch
both return `{totalHits: 1, resetTime: new Date(Date.now() + 60000)}` and
the first-hit expiry is `client.expire(redisKey, 60)` — the one-minute
window is hard-coded here, whatever `windowMs` the limiter was configured
with.  `okIncr`/`okExpire` are the success of the two store calls; either
failure lands in the catch. -/
def RedisStore.incr (client : Option StoreClient) (now : ℕ) (okIncr okExpire : Bool)
    (key : String) (st : CounterStore) : IncrInfo × CounterStore :=
  match client with
  | none => (⟨1, now + 60000⟩, st)
  | some c =>
    if !c.isOpen then (⟨1, now + 60000⟩, st)
    else
      let redisKey := "rl:" ++ key
      if !okIncr then (⟨1, now + 60000⟩, st)
      else
        let r := redisIncr redisKey st
        if r.1 = 1 then
          if !okExpire then (⟨1, now + 60000⟩, r.2)
          else (⟨r.1, now + 60000⟩, redisExpire redisKey 60 r.2)
        else (⟨r.1, now + 60000⟩, r.2)

/-- The `store.incr` wrapper installed by `createRateLimiter` (lines
100–109): it forwards to `RedisStore.incr` inside a try/catch whose
handler would return `{totalHits: 1, resetTime: now + windowMs}` — dead
code, because `RedisStore.incr` returns (rather than throws) on every
path.  `windowMs` is therefore never consulted. -/
def limiterIncr (_windowMs : ℕ) (client : Option StoreClient) (now : ℕ)
    (okIncr okExpire : Bool) (key : String) (st : CounterStore) :
    IncrInfo × CounterStore :=
  RedisStore.incr client now okIncr okExpire key st

/-- `RedisStore.decrement` (rateLimiter.js 42–56): no-op when the client is
absent or closed; otherwise `DECR`, and when the result is negative a plain
`SET redisKey 0` corrects it.  Errors (`okDecr`/`okSet` false) are caught
and swallowed. -/
def RedisStore.decrement (client : Option StoreClient) (okDecr okSet : Bool)
    (key : String) (st : CounterStore) : CounterStore :=
  match client with
  | none => st
  | some c =>
    if !c.isOpen then st
    else
      let redisKey := "rl:" ++ key
      if !okDecr then st
      else
        let r := redisDecr redisKey st
        if r.1 < 0 then
          if !okSet then r.2 else redisSet redisKey 0 r.2
        else r.2

/-! ## The chapter-listing handler and its cache key
(`controllers/chapterController.js`) -/

/-- A JavaScript value used as a cache key: either an actual string or a
(pending) Promise that will resolve to one. -/
inductive JsCacheKey where
  | strVal : String → JsCacheKey
  | promiseVal : String → JsCacheKey
deriving DecidableEq

/-- `generateCacheKey` is declared `async`, so calling it yields a pending
Promise of the computed string, not the string. -/
def generateCacheKeyAsync (endpoint : String)
    (query : List (String × Option String)) : JsCacheKey :=
  .promiseVal (generateCacheKey endpoint query)

/-- chapterController.js line 24:
`const cacheKey = cacheService.generateCacheKey('/api/v1/chapters', validatedQuery);`
— no `await`, so `cacheKey` is the Promise object itself. -/
def getChaptersCacheKey (validatedQuery : List (String × Option String)) : JsCacheKey :=
  generateCacheKeyAsync "/api/v1/chapters" validatedQuery

/-- The handler passes the same `cacheKey` constant to `cacheService.get`
(line 27) and to `cacheService.set` (line 74). -/
def getChaptersKeyUsage (validatedQuery : List (String × Option String)) :
    JsCacheKey × JsCacheKey :=
  let cacheKey := getChaptersCacheKey validatedQuery
  (cacheKey, cacheKey)

/-- Default JS coercion of a non-string key to the string the store client
ultimately sees: `String(aPromise)` is `"[object Promise]"`. -/
def jsKeyToStoreString : JsCacheKey → String
  | .strVal s => s
  | .promiseVal _ => "[object Promise]"

theorem lookup_cacheUpsert (k : String) (e : CacheEntry) (st : CacheStore) :
    (cacheUpsert k e st).lookup k = some e :=
  lookup_cons_eq k e _

theorem lookup_counterUpsert (k : String) (e : CounterEntry) (st : CounterStore) :
    (counterUpsert k e st).lookup k = some e :=
  lookup_cons_eq k e _

/-! ## Claims -/

/-- C1: the claim says every cache operation's store round trip is bounded
by its timeout (5 s single-key, 10 s pattern-wide), completing with the
failure result when the timeout fires first.  The code builds the timeout
promise but `await`s the store call *before* `Promise.race`, so the race
only ever sees an already-settled value: every operation's elapsed time
equals the store call's own duration (unbounded, `⊤` when the store call
never settles) and the operation always delivers the store result, never
the timeout failure.  A store `get` settling after 6000 ms makes `get`
take 6000 ms — past the claimed 5000 ms bound. -/
theorem claim_C1_timeout_never_bounds :
    (∀ call : JsPromise (Option String), cacheGetElapsed call = call.settleAt) ∧
    (∀ call : JsPromise Unit, cacheSetElapsed call = call.settleAt) ∧
    (∀ call : JsPromise ℕ, cacheDeleteElapsed call = call.settleAt) ∧
    (∀ call : JsPromise (List String), invalidatePatternScanElapsed call = call.settleAt) ∧
    (∀ call : JsPromise Unit, clearAllElapsed call = call.settleAt) ∧
    cacheGetElapsed ⟨6000, some "x"⟩ = 6000 ∧
    ¬ (cacheGetElapsed ⟨6000, some "x"⟩ ≤ 5000) ∧
    cacheGetElapsed ⟨⊤, none⟩ = ⊤ ∧
    awaitThenRaceResult 5000 (⟨6000, some "x"⟩ : JsPromise (Option String)) =
      some (some "x") := by
  refine ⟨fun c => awaitThenRaceElapsed_eq 5000 c, fun c => awaitThenRaceElapsed_eq 5000 c,
    fun c => awaitThenRaceElapsed_eq 5000 c, fun c => awaitThenRaceElapsed_eq 10000 c,
    fun c => awaitThenRaceElapsed_eq 10000 c, ?_, ?_, ?_, ?_⟩
  · rw [cacheGetElapsed, awaitThenRaceElapsed_eq]
  · rw [cacheGetElapsed, awaitThenRaceElapsed_eq]
    decide
  · rw [cacheGetElapsed, awaitThenRaceElapsed_eq]
  · exact awaitThenRaceResult_eq 5000 _

/-- C2 (counterexample): the claim says the fail-open synthetic response is
`{totalHits: 1, resetTime: now + windowMs}` for every configured window.
With `windowMs = 120000` and the client absent, the code returns
`resetTime = now + 60000` (the hard-coded minute), not `now + 120000`. -/
theorem claim_C2_counterexample :
    (limiterIncr 120000 none 0 true true "k" []).1.resetTime = 60000 ∧
      (60000 : ℕ) ≠ 0 + 120000 := by
  constructor
  · rfl
  · decide

/-- C2 (amended): whenever the store client is absent, its connection is
not open, or the increment attempt errors, the limiter's increment returns
the synthetic `{totalHits: 1, resetTime: now + 60000}` — a hard-coded
one-minute horizon, equal to `now + windowMs` only for the default
60-second window — leaves the counter store untouched, and never throws
(the operation is a total function); `totalHits = 1` never reports the
request as over limit. -/
theorem claim_C2_fail_open (windowMs : ℕ) (client : Option StoreClient) (now : ℕ)
    (okI okE : Bool) (key : String) (st : CounterStore)
    (h : client = none ∨ (∃ c, client = some c ∧ c.isOpen = false) ∨ okI = false) :
    limiterIncr windowMs client now okI okE key st = (⟨1, now + 60000⟩, st) := by
  rcases h with rfl | ⟨c, rfl, hc⟩ | hokI
  · rfl
  · simp [limiterIncr, RedisStore.incr, hc]
  · cases client with
    | none => rfl
    | some c =>
      cases hc : c.isOpen with
      | false => simp [limiterIncr, RedisStore.incr, hc]
      | true => simp [limiterIncr, RedisStore.incr, hc, hokI]

theorem claim_C2_fail_open_witness :
    ((none : Option StoreClient) = none ∨
      (∃ c, (none : Option StoreClient) = some c ∧ c.isOpen = false) ∨ true = false) ∧
    limiterIncr 120000 none 5 true true "k" [] = (⟨1, 5 + 60000⟩, []) :=
  ⟨Or.inl rfl, claim_C2_fail_open 120000 none 5 true true "k" [] (Or.inl rfl)⟩

/-- C3: `generateCacheKey` returns the endpoint unchanged on an empty query
mapping; otherwise it drops every null/undefined-valued key, sorts the
survivors lexicographically, joins `key=url-encoded-value` with `&` and
appends the join behind a `?` (when every pair is dropped the join is
empty and the code appends nothing, returning the bare endpoint — made
explicit here by the `[("a", none)]` conjunct and by the `specCacheKey`
comparison function written from the claim's words).  The result depends
only on the query mapping as a map: permuting the pairs of a
duplicate-free mapping leaves the key unchanged, and the two examples of
the claim compute as stated. -/
theorem claim_C3_generateCacheKey (e : String) (q₁ q₂ q : List (String × Option String))
    (hperm : q₁.Perm q₂) (hnd : (q₁.map Prod.fst).Nodup) (hndq : (q.map Prod.fst).Nodup) :
    generateCacheKey e [] = e ∧
    generateCacheKey e q₁ = generateCacheKey e q₂ ∧
    generateCacheKey e q = specCacheKey e q ∧
    generateCacheKey "/x" [("b", some "2"), ("a", some "1")] = "/x?a=1&b=2" ∧
    generateCacheKey "/x" [("a", none), ("b", some "1")] = "/x?b=1" ∧
    generateCacheKey "/x" [("a", none)] = "/x" :=
  ⟨rfl, generateCacheKey_perm hperm hnd, generateCacheKey_eq_spec e hndq,
    by decide, by decide, by decide⟩

theorem claim_C3_generateCacheKey_witness :
    ([(("b" : String), some "2"), ("a", some "1")].Perm
      [(("a" : String), some "1"), ("b", some "2")]) ∧
    (([(("b" : String), some "2"), ("a", some "1")].map Prod.fst).Nodup) ∧
    (([(("a" : String), none), ("b", some "1")].map Prod.fst).Nodup) ∧
    (generateCacheKey "/x" [] = "/x" ∧
      generateCacheKey "/x" [("b", some "2"), ("a", some "1")] =
        generateCacheKey "/x" [("a", some "1"), ("b", some "2")] ∧
      generateCacheKey "/x" [("a", none), ("b", some "1")] =
        specCacheKey "/x" [("a", none), ("b", some "1")] ∧
      generateCacheKey "/x" [("b", some "2"), ("a", some "1")] = "/x?a=1&b=2" ∧
      generateCacheKey "/x" [("a", none), ("b", some "1")] = "/x?b=1" ∧
      generateCacheKey "/x" [("a", none)] = "/x") :=
  ⟨by decide, by decide, by decide,
    claim_C3_generateCacheKey "/x" [("b", some "2"), ("a", some "1")]
      [("a", some "1"), ("b", some "2")] [("a", none), ("b", some "1")]
      (by decide) (by decide) (by decide)⟩

/-- C4: whenever `isAvailable()` is false, `get` returns absent for every
key and every store content, `set` returns false and leaves the store
untouched for every key and value, and neither operation can throw (both
are total functions of the embedded state). -/
theorem claim_C4_unavailable (s : CacheServiceState) (ok : Bool) (st : CacheStore)
    (key : String) (v : Json) (expiry : ℕ)
    (h : CacheService.isAvailable s = false) :
    cacheGet s ok st key = none ∧ cacheSet s ok st key v expiry = (false, st) := by
  constructor
  · simp [cacheGet, h]
  · simp [cacheSet, h]

theorem claim_C4_unavailable_witness :
    CacheService.isAvailable ⟨none, true⟩ = false ∧
    (cacheGet ⟨none, true⟩ true [] "k" = none ∧
      cacheSet ⟨none, true⟩ true [] "k" (Json.num 1) 3600 = (false, [])) :=
  ⟨by decide, claim_C4_unavailable ⟨none, true⟩ true [] "k" (Json.num 1) 3600 (by decide)⟩

/-- C5: with the store available and the two store calls succeeding,
`set k v` reports success and writes `JSON.stringify(v)` under `k`, and an
immediately following `get k` deserializes it back to a value equal to
`v` — the serialize-on-write / deserialize-on-read round trip is the
identity on stored JSON values. -/
theorem claim_C5_set_get_roundtrip (s : CacheServiceState) (st : CacheStore)
    (k : String) (v : Json) (expiry : ℕ)
    (h : CacheService.isAvailable s = true) :
    (cacheSet s true st k v expiry).1 = true ∧
    cacheGet s true (cacheSet s true st k v expiry).2 k = some v := by
  have h2 : (cacheSet s true st k v expiry).2 =
      cacheUpsert k ⟨jsonStringify v, expiry⟩ st := by
    simp [cacheSet, h]
  constructor
  · simp [cacheSet, h]
  · rw [h2]
    simp [cacheGet, h, lookup_cacheUpsert, jsonStringify_ne_empty v,
      jsonParse_stringify v]

theorem claim_C5_set_get_roundtrip_witness :
    CacheService.isAvailable ⟨some ⟨true⟩, true⟩ = true ∧
    ((cacheSet ⟨some ⟨true⟩, true⟩ true [] "k" (Json.arr [Json.num 1, Json.str "a"]) 3600).1
        = true ∧
      cacheGet ⟨some ⟨true⟩, true⟩ true
          (cacheSet ⟨some ⟨true⟩, true⟩ true [] "k"
            (Json.arr [Json.num 1, Json.str "a"]) 3600).2 "k" =
        some (Json.arr [Json.num 1, Json.str "a"])) :=
  ⟨by decide, claim_C5_set_get_roundtrip ⟨some ⟨true⟩, true⟩ [] "k"
    (Json.arr [Json.num 1, Json.str "a"]) 3600 (by decide)⟩

/-- C6: with the client open and the store calls succeeding,
`decrement(key)` always leaves the counter at a value ≥ 0, whatever it
held before (a decrement observing a negative result rewrites the counter
to 0); in particular decrementing a counter at 0 leaves it at 0.  When
the client is absent the operation is a no-op, so it never drives any
counter below zero on that path either. -/
theorem claim_C6_decrement_clamps (c : StoreClient) (key : String) (st : CounterStore)
    (hopen : c.isOpen = true) :
    (∃ e, (RedisStore.decrement (some c) true true key st).lookup ("rl:" ++ key) =
        some e ∧ 0 ≤ e.value) ∧
    (∀ e₀, st.lookup ("rl:" ++ key) = some e₀ → e₀.value = 0 →
      ∃ e, (RedisStore.decrement (some c) true true key st).lookup ("rl:" ++ key) =
        some e ∧ e.value = 0) ∧
    (∀ okD okS, RedisStore.decrement none okD okS key st = st) := by
  refine ⟨?_, ?_, fun _ _ => rfl⟩
  · cases hl : st.lookup ("rl:" ++ key) with
    | none =>
      refine ⟨⟨0, none⟩, ?_, le_refl 0⟩
      simp only [RedisStore.decrement, hopen, Bool.not_true, Bool.false_eq_true,
        if_false, redisDecr, hl, redisSet]
      rw [if_pos (by decide : (-1 : ℤ) < 0)]
      exact lookup_counterUpsert _ _ _
    | some e₀ =>
      by_cases hneg : e₀.value - 1 < 0
      · refine ⟨⟨0, none⟩, ?_, le_refl 0⟩
        simp only [RedisStore.decrement, hopen, Bool.not_true, Bool.false_eq_true,
          if_false, redisDecr, hl, redisSet]
        rw [if_pos hneg]
        exact lookup_counterUpsert _ _ _
      · refine ⟨⟨e₀.value - 1, e₀.ttl⟩, ?_, by show (0 : ℤ) ≤ e₀.value - 1; omega⟩
        simp only [RedisStore.decrement, hopen, Bool.not_true, Bool.false_eq_true,
          if_false, redisDecr, hl]
        rw [if_neg hneg]
        exact lookup_counterUpsert _ _ _
  · intro e₀ hl hv
    refine ⟨⟨0, none⟩, ?_, rfl⟩
    simp only [RedisStore.decrement, hopen, Bool.not_true, Bool.false_eq_true,
      if_false, redisDecr, hl, redisSet]
    rw [if_pos (by omega : e₀.value - 1 < 0)]
    exact lookup_counterUpsert _ _ _

theorem claim_C6_decrement_clamps_witness :
    (⟨true⟩ : StoreClient).isOpen = true ∧
    ((∃ e, (RedisStore.decrement (some ⟨true⟩) true true "k"
          [("rl:k", ⟨0, some 60⟩)]).lookup ("rl:" ++ "k") = some e ∧ 0 ≤ e.value) ∧
      (∀ e₀, ([("rl:k", (⟨0, some 60⟩ : CounterEntry))]).lookup ("rl:" ++ "k") = some e₀ →
        e₀.value = 0 →
        ∃ e, (RedisStore.decrement (some ⟨true⟩) true true "k"
            [("rl:k", ⟨0, some 60⟩)]).lookup ("rl:" ++ "k") = some e ∧ e.value = 0) ∧
      (∀ okD okS, RedisStore.decrement none okD okS "k" [("rl:k", ⟨0, some 60⟩)] =
        [("rl:k", ⟨0, some 60⟩)])) :=
  ⟨rfl, claim_C6_decrement_clamps ⟨true⟩ "k" [("rl:k", ⟨0, some 60⟩)] rfl⟩

/-- C7 (counterexample): the claim says a first hit sets the key's expiry
to the configured window length and returns `resetTime = now + windowMs`.
With `windowMs = 120000`, an open client and a fresh key, the code sets a
60-second expiry (not 120) and returns `resetTime = now + 60000` (not
`now + 120000`). -/
theorem claim_C7_counterexample :
    (limiterIncr 120000 (some ⟨true⟩) 0 true true "k" []).2.lookup "rl:k" =
        some ⟨1, some 60⟩ ∧
      some (60 : ℕ) ≠ some (120 : ℕ) ∧
      (limiterIncr 120000 (some ⟨true⟩) 0 true true "k" []).1.resetTime = 60000 ∧
      (60000 : ℕ) ≠ 0 + 120000 := by
  refine ⟨by decide, by decide, rfl, by decide⟩

/-- C7 (amended): for every configured limiter, when `increment(key)`
observes a counter result of exactly 1 (first hit on a fresh key) it sets
the key's expiry to a hard-coded 60 seconds and returns
`resetTime = now + 60000` — values equal to the configured window length
only when `windowMs = 60000`, which does hold for all three preconfigured
limiters (general, strict, upload all use a one-minute window). -/
theorem claim_C7_first_hit (windowMs : ℕ) (c : StoreClient) (now : ℕ) (key : String)
    (st : CounterStore) (hopen : c.isOpen = true)
    (hfresh : st.lookup ("rl:" ++ key) = none) :
    (limiterIncr windowMs (some c) now true true key st).1 = ⟨1, now + 60000⟩ ∧
    (limiterIncr windowMs (some c) now true true key st).2.lookup ("rl:" ++ key) =
      some ⟨1, some 60⟩ := by
  have hstep : limiterIncr windowMs (some c) now true true key st =
      (⟨1, now + 60000⟩,
        redisExpire ("rl:" ++ key) 60 (counterUpsert ("rl:" ++ key) ⟨1, none⟩ st)) := by
    simp only [limiterIncr, RedisStore.incr, hopen, Bool.not_true, Bool.false_eq_true,
      if_false, redisIncr, hfresh]
    simp
  rw [hstep]
  refine ⟨rfl, ?_⟩
  simp only [redisExpire, lookup_counterUpsert]

theorem claim_C7_first_hit_witness :
    (⟨true⟩ : StoreClient).isOpen = true ∧
    ([] : CounterStore).lookup ("rl:" ++ "k") = none ∧
    ((limiterIncr 120000 (some ⟨true⟩) 7 true true "k" []).1 = ⟨1, 7 + 60000⟩ ∧
      (limiterIncr 120000 (some ⟨true⟩) 7 true true "k" []).2.lookup ("rl:" ++ "k") =
        some ⟨1, some 60⟩) :=
  ⟨rfl, rfl, claim_C7_first_hit 120000 ⟨true⟩ 7 "k" [] rfl rfl⟩

/-- C8: with the store available, `invalidatePattern` returns true whenever
the scan-and-batch-delete completed: in particular when zero keys match
the pattern it returns true and leaves the store untouched; it returns
false (and leaves the store untouched) when the scan errors, when the
batch delete errors, or when the store is unavailable. -/
theorem claim_C8_invalidatePattern (s : CacheServiceState) (st : CacheStore)
    (pattern : String) (okK okD : Bool)
    (havail : CacheService.isAvailable s = true) :
    (okK = true → (st.map Prod.fst).filter (fun k => globMatch pattern k) = [] →
      invalidatePattern s okK okD st pattern = (true, st)) ∧
    (okK = true → okD = true → (invalidatePattern s okK okD st pattern).1 = true) ∧
    (okK = false → invalidatePattern s okK okD st pattern = (false, st)) ∧
    (okK = true → okD = false →
      (st.map Prod.fst).filter (fun k => globMatch pattern k) ≠ [] →
      invalidatePattern s okK okD st pattern = (false, st)) ∧
    (∀ s₂, CacheService.isAvailable s₂ = false →
      invalidatePattern s₂ okK okD st pattern = (false, st)) := by
  refine ⟨?_, ?_, ?_, ?_, ?_⟩
  · intro hokK hempty
    simp [invalidatePattern, havail, hokK, hempty]
  · intro hokK hokD
    simp only [invalidatePattern, havail, hokK, hokD, Bool.not_true,
      Bool.false_eq_true, if_false]
    split
    · rfl
    · rfl
  · intro hokK
    simp [invalidatePattern, havail, hokK]
  · intro hokK hokD hne
    have hlen : 0 < ((st.map Prod.fst).filter (fun k => globMatch pattern k)).length :=
      List.length_pos.mpr hne
    simp [invalidatePattern, havail, hokK, hokD, hlen]
  · intro s₂ h₂
    simp [invalidatePattern, h₂]

theorem claim_C8_invalidatePattern_witness :
    CacheService.isAvailable ⟨some ⟨true⟩, true⟩ = true ∧
    (true = true → ((([("a", (⟨"x", 1⟩ : CacheEntry))] : CacheStore).map Prod.fst).filter
        (fun k => globMatch "nomatch*" k) = []) →
      invalidatePattern ⟨some ⟨true⟩, true⟩ true true [("a", ⟨"x", 1⟩)] "nomatch*" =
        (true, [("a", ⟨"x", 1⟩)])) ∧
    (invalidatePattern ⟨some ⟨true⟩, true⟩ true true [("a", ⟨"x", 1⟩)] "nomatch*" =
      (true, [("a", ⟨"x", 1⟩)])) :=
  ⟨by decide,
    (claim_C8_invalidatePattern ⟨some ⟨true⟩, true⟩ [("a", ⟨"x", 1⟩)] "nomatch*"
      true true (by decide)).1,
    (claim_C8_invalidatePattern ⟨some ⟨true⟩, true⟩ [("a", ⟨"x", 1⟩)] "nomatch*"
      true true (by decide)).1 rfl (by decide)⟩

/-- C9: `generateCacheKey` is declared `async`, so the handler's
un-awaited call binds `cacheKey` to a pending Promise, never to a string;
the same Promise value is passed to both the cache lookup and the
write-through, and the string the store client ultimately sees is the
default coercion `"[object Promise]"` — identical for any two requests,
whatever their validated query parameters. -/
theorem claim_C9_promise_key (q₁ q₂ : List (String × Option String)) :
    (∃ p, getChaptersCacheKey q₁ = .promiseVal p) ∧
    (∀ s, getChaptersCacheKey q₁ ≠ .strVal s) ∧
    (getChaptersKeyUsage q₁).1 = (getChaptersKeyUsage q₁).2 ∧
    jsKeyToStoreString (getChaptersCacheKey q₁) = "[object Promise]" ∧
    jsKeyToStoreString (getChaptersCacheKey q₁) =
      jsKeyToStoreString (getChaptersCacheKey q₂) :=
  ⟨⟨generateCacheKey "/api/v1/chapters" q₁, rfl⟩,
    fun _ h => JsCacheKey.noConfusion h, rfl, rfl, rfl⟩

/-- C10: when `decrement(key)` observes a negative counter after the
`DECR` (any prior value ≤ 0, in particular a counter at 0), the
correction is a plain `SET redisKey 0`, which stores 0 with no expiry:
the key's time-to-live is removed, so the counter key persists
indefinitely instead of resetting via window expiry. -/
theorem claim_C10_clamp_drops_ttl (c : StoreClient) (key : String) (st : CounterStore)
    (v : ℤ) (o : Option ℕ) (hopen : c.isOpen = true)
    (hprev : st.lookup ("rl:" ++ key) = some ⟨v, o⟩) (hv : v ≤ 0) :
    (RedisStore.decrement (some c) true true key st).lookup ("rl:" ++ key) =
      some ⟨0, none⟩ := by
  simp only [RedisStore.decrement, hopen, Bool.not_true, Bool.false_eq_true, if_false,
    redisDecr, hprev, redisSet]
  rw [if_pos (by show v - 1 < 0; omega)]
  exact lookup_counterUpsert _ _ _

theorem claim_C10_clamp_drops_ttl_witness :
    (⟨true⟩ : StoreClient).isOpen = true ∧
    ([("rl:k", (⟨0, some 60⟩ : CounterEntry))] : CounterStore).lookup ("rl:" ++ "k") =
      some ⟨0, some 60⟩ ∧
    (0 : ℤ) ≤ 0 ∧
    (RedisStore.decrement (some ⟨true⟩) true true "k"
        [("rl:k", ⟨0, some 60⟩)]).lookup ("rl:" ++ "k") = some ⟨0, none⟩ :=
  ⟨rfl, by decide, le_refl 0,
    claim_C10_clamp_drops_ttl ⟨true⟩ "k" [("rl:k", ⟨0, some 60⟩)] 0 (some 60)
      rfl (by decide) (by decide)⟩
